import Mathlib

/-!
Verification of the per-channel poker game bot: a shallow embedding of
`src/bot.py` (command handlers, the card-rendering pipeline, and the
dispatcher) together with the parts of the `Game` class that `bot.py`
imports from the repository's `game.py`.  Where a `Game` method is not
present in the sources, its definition is modelled from the spec and its
doc comment says so.
-/

/-- Python `int(s)` digit-accumulation loop over a list of characters:
every character must be a decimal digit. -/
def pyDigitsAux : List Char → Nat → Option Nat
  | [], acc => some acc
  | c :: cs, acc => if c.isDigit then pyDigitsAux cs (acc * 10 + (c.toNat - 48)) else none

/-- Python `int(s)`: an optional sign followed by a nonempty run of decimal
digits; anything else raises `ValueError`, embedded as `none`. -/
def pyInt (s : String) : Option Int :=
  match s.data with
  | [] => none
  | '-' :: [] => none
  | '-' :: cs => (pyDigitsAux cs 0).map (fun n => -(n : Int))
  | '+' :: [] => none
  | '+' :: cs => (pyDigitsAux cs 0).map (fun n => (n : Int))
  | cs => (pyDigitsAux cs 0).map (fun n => (n : Int))

/-- A chat user: stable identity plus display name (`message.author`). -/
structure User where
  id : Nat
  name : String
deriving DecidableEq

/-- Modelled from the spec: the `Player` record of the missing `game.py`
(§3 data model): identity, chip stack `max_bet`, current-round
contribution `cur_bet`, hand, `folded` and `all_in` flags.  Seat position
is the player's index in the game's player list. -/
structure Player where
  user : User
  cur_bet : Int
  max_bet : Int
  folded : Bool
  all_in : Bool
  hand : List Nat
deriving DecidableEq

def defaultPlayer : Player :=
  { user := { id := 0, name := "" }, cur_bet := 0, max_bet := 0,
    folded := false, all_in := false, hand := [] }

/-- Modelled from the spec: the `GameState` enumeration of the missing
`game.py`; `bot.py` names `NO_GAME`, `WAITING` and `NO_HANDS`, the spec
(§4.1) adds `BETTING` and `SHOWDOWN`. -/
inductive GameState where
  | NO_GAME
  | WAITING
  | NO_HANDS
  | BETTING
  | SHOWDOWN
deriving DecidableEq

/-- Modelled from the spec: the `Game` class of the missing `game.py`
(§3): lifecycle state, ordered player list, dealer index, current-player
index, shared pot, table-wide `cur_bet`, option mapping and a deck. -/
structure Game where
  state : GameState
  players : List Player
  dealer_index : Nat
  turn_index : Nat
  pot : Int
  cur_bet : Int
  options : List (String × Int)
  deck : List Nat
deriving DecidableEq

/-- Property `game.dealer` as used by `bot.py`: the player at the dealer index. -/
def Game.dealer (g : Game) : Player := g.players.getD g.dealer_index defaultPlayer

/-- Property `game.current_player` as used by `bot.py`: the player at the
current-player index. -/
def Game.current_player (g : Game) : Player := g.players.getD g.turn_index defaultPlayer

/-- Property `player.name` as used by `bot.py` line 171: the display name. -/
def Player.name (p : Player) : String := p.user.name

/-- Modelled from the spec: `Game.is_player(identity)` of the missing
`game.py` (§4.2): membership of the identity in the roster. -/
def Game.is_player (g : Game) (u : User) : Bool :=
  g.players.any (fun p => decide (p.user = u))

/-- A player is eligible for the turn rotation when neither folded nor
all-in (spec §4.2). -/
def Player.eligible (p : Player) : Bool := !p.folded && !p.all_in

/-- Cyclic search for the next eligible seat, with fuel bounding the scan
to one full pass of the table. -/
def findEligible (players : List Player) : Nat → Nat → Option Nat
  | _, 0 => none
  | j, fuel + 1 =>
    if (players.getD j defaultPlayer).eligible then some j
    else findEligible players ((j + 1) % players.length) fuel

/-- Modelled from the spec: `Game.advance_turn` of the missing `game.py`
(§4.2): move the current-player pointer to the next seat in seating
order, skipping folded and all-in players and wrapping around; if fewer
than two eligible players remain, signal round completion instead of
advancing. -/
def Game.advance_turn (g : Game) : Game :=
  if (g.players.filter Player.eligible).length < 2 then g
  else
    { g with turn_index :=
        (findEligible g.players ((g.turn_index + 1) % g.players.length)
          g.players.length).getD g.turn_index }

/-- Replace the current player's record by `f` of it. -/
def Game.updateCurrent (g : Game) (f : Player → Player) : Game :=
  { g with players := g.players.set g.turn_index (f g.current_player) }

/-- Modelled from the spec: `Game.call` of the missing `game.py` (§4.3):
set the actor's `cur_bet` to the table `cur_bet` capped at the stack
(treated as all-in if capped), add the delta to the pot, advance turn. -/
def Game.call (g : Game) : List String × Game :=
  let actor := g.current_player
  let newBet := min g.cur_bet actor.max_bet
  let capped := decide (actor.max_bet < g.cur_bet)
  let g1 := g.updateCurrent (fun p => { p with cur_bet := newBet, all_in := p.all_in || capped })
  let g2 := { g1 with pot := g1.pot + (newBet - actor.cur_bet) }
  ([actor.name ++ " calls."], g2.advance_turn)

/-- Modelled from the spec: `Game.raise_bet(amount)` of the missing
`game.py` (§4.3): legal only if `amount > 0` and
`table.cur_bet + amount <= actor.max_bet`; on success set the table
`cur_bet` to `table.cur_bet + amount`, the actor's `cur_bet` to that
value, add the delta to the pot and advance the turn; otherwise reject
with an explanatory message and change nothing. -/
def Game.raise_bet (g : Game) (amount : Int) : List String × Game :=
  let actor := g.current_player
  if amount ≤ 0 then
    (["You cannot raise by a non-positive amount."], g)
  else if actor.max_bet < g.cur_bet + amount then
    (["The most you can raise it by is $" ++ toString (actor.max_bet - g.cur_bet) ++ "."], g)
  else
    let newBet := g.cur_bet + amount
    let g1 := g.updateCurrent (fun p => { p with cur_bet := newBet })
    let g2 := { g1 with cur_bet := newBet, pot := g1.pot + (newBet - actor.cur_bet) }
    ([actor.name ++ " raises by $" ++ toString amount ++ "."], g2.advance_turn)

/-- Modelled from the spec: `Game.all_in` of the missing `game.py`
(§4.3): set the actor's `cur_bet` to the whole stack, mark the actor
all-in, raise the table `cur_bet` to this value if it exceeds it, add
the delta to the pot and advance the turn. -/
def Game.all_in (g : Game) : List String × Game :=
  let actor := g.current_player
  let g1 := g.updateCurrent (fun p => { p with cur_bet := p.max_bet, all_in := true })
  let g2 := { g1 with cur_bet := max g1.cur_bet actor.max_bet,
                      pot := g1.pot + (actor.max_bet - actor.cur_bet) }
  ([actor.name ++ " goes all in."], g2.advance_turn)

/-- Modelled from the spec: `Game.start` of the missing `game.py`
(§4.1): `start` transitions the game to `NO_HANDS`, with the first seat
at start time becoming the designated dealer. -/
def Game.start (g : Game) : List String × Game :=
  (["The game has begun!"],
   { g with state := GameState.NO_HANDS, dealer_index := 0, turn_index := 0 })

/-- Assoc-list lookup with a zero default, for the option mapping. -/
def optionValue (opts : List (String × Int)) (name : String) : Int :=
  match opts with
  | [] => 0
  | kv :: rest => if kv.fst = name then kv.snd else optionValue rest name

/-- Deal two cards off the front of the deck to each player, clearing the
per-round betting fields. -/
def dealOne : List Player → List Nat → List Player × List Nat
  | [], deck => ([], deck)
  | p :: ps, deck =>
    let r := dealOne ps (deck.drop 2)
    ({ p with hand := deck.take 2, cur_bet := 0, folded := false, all_in := false } :: r.1, r.2)

/-- Modelled from the spec: `Game.deal_hands` of the missing `game.py`
(§4.1): draw two cards per player, clear per-round bets, set the table
`cur_bet` to the configured minimum and transition to `BETTING`.  The
first message is the exact string `bot.py` line 437 matches on. -/
def Game.deal_hands (g : Game) : List String × Game :=
  let r := dealOne g.players g.deck
  (["The hands have been dealt!"],
   { g with players := r.1, deck := r.2, cur_bet := optionValue g.options "blind",
            state := GameState.BETTING, turn_index := 0 })

/-- Handler `register` from `bot.py` lines 25-38; the SQL player table is
embedded as the list of registered uids, passed and returned
explicitly.  A `SELECT` hit means membership, the `INSERT` appends. -/
def register (db : List String) (uid : String) : List String × List String :=
  if db.contains uid then
    (["You already have registered!"], db)
  else
    (["Thank you for registering!"], db ++ [uid])

/-- Handler `start_game` from `bot.py` lines 83-96, guard for guard; note the
source's dead guard `len(game.players) < 0`. -/
def start_game (pfx : String) (g : Game) (author : User) : List String × Game :=
  if g.state = GameState.NO_GAME then
    (["Message " ++ pfx ++ "newgame if you would like to start a new game."], g)
  else if g.state ≠ GameState.WAITING then
    (["The game has already started, " ++ author.name ++ ".",
      "It can't be started twice."], g)
  else if g.is_player author = false then
    (["You are not a part of that game yet, " ++ author.name ++ ".",
      "Please message " ++ pfx ++ "join if you are interested in playing."], g)
  else if (g.players.length : Int) < 0 then
    (["The game must have at least two players before it can be started."], g)
  else g.start

/-- Handler `deal_hand` from `bot.py` lines 101-113, guard for guard. -/
def deal_hand (pfx : String) (g : Game) (author : User) : List String × Game :=
  if g.state = GameState.NO_GAME then
    (["No game has been started for you to deal. Message " ++ pfx ++ "newgame to start one."], g)
  else if g.state = GameState.WAITING then
    (["You can't deal because the game hasn't started yet."], g)
  else if g.state ≠ GameState.NO_HANDS then
    (["The cards have already been dealt."], g)
  else if g.dealer.user ≠ author then
    (["You aren't the dealer, " ++ author.name ++ ".",
      "Please wait for " ++ g.dealer.user.name ++ " to " ++ pfx ++ "deal."], g)
  else g.deal_hands

/-- Handler `raise_bet` from `bot.py` lines 159-189, guard for guard; the
command tokens are the split message content, the amount is parsed with
Python `int`. -/
def raise_bet (pfx : String) (g : Game) (author : User) (tokens : List String) :
    List String × Game :=
  if g.state = GameState.NO_GAME then
    (["No game has been started yet. Message !newgame to start one."], g)
  else if g.state = GameState.WAITING then
    (["You can't raise because the game hasn't started yet."], g)
  else if g.is_player author = false then
    (["You can't raise, because you're not playing, " ++ author.name ++ "."], g)
  else if g.state = GameState.NO_HANDS then
    (["You can't raise because the hands haven't been dealt yet."], g)
  else if g.current_player.user ≠ author then
    (["You can't raise, " ++ author.name ++ ", because it's "
       ++ g.current_player.name ++ "'s turn."], g)
  else if tokens.length < 2 then
    (["Please follow " ++ pfx ++ "raise with the amount that you would like to raise it by."], g)
  else
    match pyInt (tokens.getD 1 "") with
    | none =>
      (["Please follow " ++ pfx ++ "raise with an integer. '" ++ tokens.getD 1 ""
         ++ "' is not an integer."], g)
    | some amount =>
      if g.current_player.max_bet ≤ g.cur_bet then
        (["You don't have enough money to raise the current bet of $"
           ++ toString g.cur_bet ++ "."], g)
      else if g.current_player.max_bet < g.cur_bet + amount then
        (["You don't have enough money to raise by $" ++ toString amount ++ ".",
          "The most you can raise it by is $"
           ++ toString (g.current_player.max_bet - g.cur_bet) ++ "."], g)
      else g.raise_bet amount

/-- Python dict assignment `opts[k] = v` on an association list. -/
def setAssoc (opts : List (String × Int)) (k : String) (v : Int) : List (String × Int) :=
  match opts with
  | [] => [(k, v)]
  | kv :: rest => if kv.fst = k then (kv.fst, v) :: rest else kv :: setAssoc rest k v

/-- Handler `set_option` from `bot.py` lines 236-254 (named `set_option_cmd` here
because `set_option` is a Lean keyword), guard for guard; the set of
known option names (the keys of `GAME_OPTIONS` from the missing
`game.py`) is passed in abstractly, and the game's option mapping is the
explicit state. -/
def set_option_cmd (knownOptions : List String) (tokens : List String)
    (options : List (String × Int)) : List String × List (String × Int) :=
  if tokens.length = 2 then
    (["You must specify a new value after the name of an option when using the $set command."],
     options)
  else if tokens.length = 1 then
    (["You must specify an option and value to set when using the !set command."], options)
  else if knownOptions.contains (tokens.getD 1 "") = false then
    (["'" ++ tokens.getD 1 "" ++ "' is not an option. Message !options to see the list of options."],
     options)
  else
    match pyInt (tokens.getD 2 "") with
    | some val =>
      if val < 0 then
        (["Cannot set " ++ tokens.getD 1 "" ++ " to a negative value!"], options)
      else
        (["The " ++ tokens.getD 1 "" ++ " is now set to " ++ tokens.getD 2 "" ++ "."],
         setAssoc options (tokens.getD 1 "") val)
    | none =>
      ([tokens.getD 1 "" ++ " must be set to an integer, and '" ++ tokens.getD 2 ""
         ++ "' is not a valid integer."], options)

/-- Python `message.find(c, start)` search loop: the least index at or
after `start` holding `c`, with `none` for Python's `-1`.  The counter
argument carries the absolute index of the list head. -/
def strFindAux (c : Char) : List Char → Nat → Option Nat
  | [], _ => none
  | a :: rest, i => if a = c then some i else strFindAux c rest (i + 1)

/-- Python `message.find(c, start)`. -/
def strFind (s : List Char) (c : Char) (start : Nat) : Option Nat :=
  strFindAux c (s.drop start) start

/-- The `while i != -1` loop of `find_card` (`bot.py` lines 332-334):
collect each found position and re-search from one past it.  The fuel
argument bounds the loop; `dashPositionsFrom` supplies enough fuel. -/
def dashLoop (s : List Char) : Nat → Nat → List Nat
  | _, 0 => []
  | start, fuel + 1 =>
    match strFind s '-' start with
    | none => []
    | some i => i :: dashLoop s (i + 1) fuel

/-- All `'-'` positions of `s` at or after `start`, in order: the
`find`/re-`find` loop of `find_card` run to completion. -/
def dashPositionsFrom (s : List Char) (start : Nat) : List Nat :=
  dashLoop s start (s.length + 1)

/-- All `'-'` positions of a line. -/
def dashPositions (s : List Char) : List Nat := dashPositionsFrom s 0

/-- The enumeration loop of `find_card` (`bot.py` lines 328-334) with an
explicit index counter: for each line whose `find('-')` hits, append the
line index, the hit, and every later hit in that same line. -/
def find_card_aux : Nat → List (List Char) → List Nat
  | _, [] => []
  | idx, m :: rest =>
    (match strFind m '-' 0 with
     | none => []
     | some i => idx :: i :: dashPositionsFrom m (i + 1)) ++ find_card_aux (idx + 1) rest

/-- Function `find_card` from `bot.py` lines 326-335. -/
def find_card (messages : List (List Char)) : List Nat := find_card_aux 0 messages

/-- The position scan as the spec (§4.4) describes it: only the first
line containing the delimiter contributes its index and positions.  Used
to compare the spec's account against the source's `find_card`. -/
def find_card_spec (messages : List (List Char)) : List Nat :=
  match messages.findIdx? (fun m => (strFind m '-' 0).isSome) with
  | none => []
  | some k => k :: dashPositions (messages.getD k [])

/-- Python slicing `s[a:b]` for nonnegative bounds. -/
def pySlice (s : List Char) (a b : Nat) : List Char := (s.take b).drop a

/-- The card-token extraction loop of `on_message` (`bot.py` lines
445-447): `len(locates) - 2` tokens, each cut from the line at index
`locates[0]` between consecutive recorded positions, wrapped as
`"Cards/" + token + ".png"`. -/
def extract_cards (messages : List (List Char)) (locates : List Nat) : List (List Char) :=
  (List.range (locates.length - 2)).map (fun i =>
    "Cards/".data
      ++ pySlice (messages.getD (locates.getD 0 0) []) (locates.getD (i + 1) 0 + 1)
           (locates.getD (i + 2) 0)
      ++ ".png".data)

/-- An in-memory image: dimensions plus pixel contents.  PIL's
`Image.new`, `paste` and `size` are modelled on this type with their
documented semantics. -/
structure Img where
  width : Nat
  height : Nat
  pix : Nat → Nat → Nat

/-- PIL `Image.new`: a blank image of the given size. -/
def Image_new (w h : Nat) : Img := { width := w, height := h, pix := fun _ _ => 0 }

/-- PIL `base.paste(im, (x, y))`: overwrite the rectangle of `base` at
offset `(x, y)` with the pixels of `im`; dimensions are unchanged. -/
def paste (base im : Img) (x y : Nat) : Img :=
  { base with pix := fun a b =>
      if x ≤ a ∧ a < x + im.width ∧ y ≤ b ∧ b < y + im.height then im.pix (a - x) (b - y)
      else base.pix a b }

/-- The paste loop of `on_message` (`bot.py` lines 460-463): paste each
image at the running `x_offset` with `y = 0`, then advance the offset by
the image's width. -/
def pasteLoop : List Img → Img → Nat → Img
  | [], acc, _ => acc
  | im :: rest, acc, x => pasteLoop rest (paste acc im x 0) (x + im.width)

/-- Python `max` over a list of naturals (defined on nonempty input in
the source; `0` stands in for the empty-input exception). -/
def pyMax (l : List Nat) : Nat := l.foldl max 0

/-- The image-composition block of `on_message` (`bot.py` lines
453-463): a new image of width the sum of the widths and height the
maximum height, filled by the paste loop from `x_offset = 0`. -/
def compose_images (images : List Img) : Img :=
  pasteLoop images (Image_new ((images.map Img.width).sum) (pyMax (images.map Img.height))) 0

/-- What `on_message` delivers for one command's response lines: the
lines as plain text; or remaining lines plus a composed image; or — when
the extraction produced zero tokens — the remaining lines followed by an
uncaught `ValueError` at the `zip` unpack of `bot.py` line 454, so no
image is ever sent. -/
inductive RenderOut where
  | textOnly : List (List Char) → RenderOut
  | withImage : List (List Char) → Img → RenderOut
  | textThenError : List (List Char) → RenderOut
deriving Inhabited

/-- Whether an outcome delivers a composed image. -/
def RenderOut.sendsImage : RenderOut → Bool
  | RenderOut.withImage _ _ => true
  | _ => false

/-- The rendering branch of `on_message` (`bot.py` lines 440-468): if
`find_card` finds nothing, send the joined lines as text; otherwise cut
the card tokens, remove line `locates[0]` from the response
(`messages.pop`), and send the remaining lines.  If the token list is
empty (fewer than three recorded values), the subsequent
`widths, heights = zip(*(i.size for i in images))` at `bot.py` line 454
raises `ValueError` on the empty unpack, embedded as `textThenError`:
the text was already sent, no image follows.  Otherwise the composed
image of the tokens' assets is sent separately.  `assets` stands for
opening the image file named by a token. -/
def handle_render (assets : List Char → Img) (messages : List (List Char)) : RenderOut :=
  if find_card messages = [] then
    RenderOut.textOnly messages
  else
    let locates := find_card messages
    let cards := extract_cards messages locates
    if cards = [] then
      RenderOut.textThenError (messages.eraseIdx (locates.getD 0 0))
    else
      RenderOut.withImage (messages.eraseIdx (locates.getD 0 0))
        (compose_images (cards.map assets))

/-- Character-list test that `p` begins `s`, for Python
`str.removeprefix`. -/
def isPfxOf : List Char → List Char → Bool
  | [], _ => true
  | _ :: _, [] => false
  | a :: as, b :: bs => a == b && isPfxOf as bs

/-- Python `command.removeprefix(p)`: strip `p` when it begins the
string, otherwise return the string unchanged. -/
def stripPfx (s p : String) : String :=
  if isPfxOf p.data s.data then { data := s.data.drop p.data.length } else s

/-- Python `command[0]` as a one-character string. -/
def firstCharStr (w : String) : String := { data := w.data.take 1 }

/-- The keys of the `commands` dict of `bot.py` lines 340-373. -/
def command_names : List String :=
  ["newgame", "join", "start", "deal", "call", "raise", "check", "fold", "help",
   "options", "set", "balance", "all-in", "reg", "dealer", "stop"]

/-- The dispatch steps of `on_message` (`bot.py` lines 407-431) that
manage the channel-to-game map: take the first token, require the
command character, strip it, reject unknown commands, then
`games.setdefault(channel, Game(message))`.  Channels are keyed by `Nat`;
`fresh` is the `Game(message)` argument of `setdefault`.  Returns the
updated map and the game handed to the handler (`none` when no handler
runs). -/
def on_message_route (pfx : String) (games : Nat → Option Game) (channel : Nat)
    (tokens : List String) (fresh : Game) : (Nat → Option Game) × Option Game :=
  match tokens with
  | [] => (games, none)
  | w :: _ =>
    if firstCharStr w = pfx then
      let cmd := stripPfx w pfx
      if command_names.contains cmd then
        let gameUsed := (games channel).getD fresh
        (fun ch => if ch = channel then some gameUsed else games ch, some gameUsed)
      else (games, none)
    else (games, none)

/-- A betting action of one round, as the spec's §4.3 and §8 pot
conservation property enumerate them. -/
inductive BetAction where
  | callA : BetAction
  | raiseA : Int → BetAction
  | allInA : BetAction

/-- Apply one betting action to the game through the engine
operations. -/
def applyAction (g : Game) : BetAction → Game
  | BetAction.callA => (Game.call g).2
  | BetAction.raiseA a => (Game.raise_bet g a).2
  | BetAction.allInA => (Game.all_in g).2

/-- Apply a sequence of betting actions left to right. -/
def applyActions (g : Game) : List BetAction → Game
  | [] => g
  | act :: rest => applyActions (applyAction g act) rest

/-- The sum of every player's current-round contribution. -/
def sumBets (g : Game) : Int := (g.players.map Player.cur_bet).sum

/-- Concrete user for instantiations. -/
def aliceU : User := { id := 1, name := "alice" }

/-- Concrete user for instantiations. -/
def bobU : User := { id := 2, name := "bob" }

/-- Concrete player seated first. -/
def aliceP : Player :=
  { user := aliceU, cur_bet := 10, max_bet := 100, folded := false, all_in := false, hand := [] }

/-- Concrete player seated second. -/
def bobP : Player :=
  { user := bobU, cur_bet := 3, max_bet := 50, folded := false, all_in := false, hand := [] }

/-- A `WAITING` game with a single joined player: the requester. -/
def soloGame : Game :=
  { state := GameState.WAITING, players := [aliceP], dealer_index := 0, turn_index := 0,
    pot := 0, cur_bet := 0, options := [], deck := [] }

/-- A `NO_HANDS` game whose dealer is the first seat. -/
def noHandsGame : Game :=
  { state := GameState.NO_HANDS, players := [aliceP, bobP], dealer_index := 0, turn_index := 0,
    pot := 0, cur_bet := 0, options := [], deck := [1, 2, 3, 4, 5] }

/-- A `BETTING` game mid-round: pot carries `7` over the current bets. -/
def bettingGame : Game :=
  { state := GameState.BETTING, players := [aliceP, bobP], dealer_index := 0, turn_index := 0,
    pot := 20, cur_bet := 10, options := [], deck := [] }

/-- A freshly constructed game, as `Game(message)` would make one. -/
def freshGame : Game :=
  { state := GameState.NO_GAME, players := [], dealer_index := 0, turn_index := 0,
    pot := 0, cur_bet := 0, options := [], deck := [] }

/-- Concrete 2-by-3 test image with injective pixel contents. -/
def imA : Img := { width := 2, height := 3, pix := fun a b => 10 + 10 * a + b }

/-- Concrete 1-by-2 test image with pixel contents disjoint from `imA`. -/
def imB : Img := { width := 1, height := 2, pix := fun a b => 100 + a + b }

theorem getD_set_self {α : Type} (l : List α) (i : Nat) (x d : α) (h : i < l.length) :
    (l.set i x).getD i d = x := by
  induction l generalizing i with
  | nil => simp at h
  | cons a as ih =>
    cases i with
    | zero => rfl
    | succ j => exact ih j (by simpa using h)

theorem contains_append_self (db : List String) (uid : String) :
    (db ++ [uid]).contains uid = true := by
  induction db with
  | nil => simp
  | cons a as ih => simp [ih]

/-- Claim C9: registration is idempotent on the player store: a first
registration for an identity inserts it, a repeat registration by the
same identity performs no write and reports "already registered", and
registering twice leaves the store equal to registering once. -/
theorem register_idempotent (db : List String) (uid : String) :
    (db.contains uid = false →
      register db uid = (["Thank you for registering!"], db ++ [uid]))
    ∧ (db.contains uid = true →
      register db uid = (["You already have registered!"], db))
    ∧ (register (register db uid).2 uid).2 = (register db uid).2
    ∧ (register (register db uid).2 uid).1 = ["You already have registered!"] := by
  by_cases h : db.contains uid = true
  · have hreg : register db uid = (["You already have registered!"], db) := by
      unfold register
      rw [if_pos h]
    refine ⟨fun hf => absurd (h.symm.trans hf) (by decide), fun _ => hreg, ?_, ?_⟩
    · simp [hreg]
    · simp [hreg]
  · have h' : db.contains uid = false := by
      cases hb : db.contains uid
      · rfl
      · exact absurd hb h
    have hreg : register db uid = (["Thank you for registering!"], db ++ [uid]) := by
      unfold register
      rw [if_neg h]
    have hreg2 : register (db ++ [uid]) uid = (["You already have registered!"], db ++ [uid]) := by
      unfold register
      rw [if_pos (contains_append_self db uid)]
    refine ⟨fun _ => hreg, fun ht => absurd (h'.symm.trans ht) (by decide), ?_, ?_⟩
    · simp [hreg, hreg2]
    · simp [hreg, hreg2]

/-- Witness for `register_idempotent` at the empty store and uid `"1"`. -/
theorem register_idempotent_witness :
    (List.contains ([] : List String) "1" = false)
    ∧ register ([] : List String) "1" = (["Thank you for registering!"], ["1"])
    ∧ (register (register ([] : List String) "1").2 "1").1 = ["You already have registered!"] := by
  refine ⟨by decide, ?_, (register_idempotent [] "1").2.2.2⟩
  exact (register_idempotent [] "1").1 (by decide)

/-- Claim C8: a `set <option> <value>` command with an unknown option
name, a non-integer value, or a negative value is rejected with at least
one explanatory line and the option mapping is unchanged; otherwise the
named option is updated to the given value. -/
theorem set_option_validation (known : List String) (name value : String)
    (rest : List String) (opts : List (String × Int)) :
    ((known.contains name = false ∨ pyInt value = none
        ∨ (∃ v : Int, pyInt value = some v ∧ v < 0)) →
      (set_option_cmd known ("set" :: name :: value :: rest) opts).2 = opts
      ∧ (set_option_cmd known ("set" :: name :: value :: rest) opts).1 ≠ [])
    ∧ (∀ v : Int, known.contains name = true → pyInt value = some v → 0 ≤ v →
        set_option_cmd known ("set" :: name :: value :: rest) opts
          = (["The " ++ name ++ " is now set to " ++ value ++ "."], setAssoc opts name v)) := by
  have hl2 : ¬ (("set" :: name :: value :: rest).length = 2) := by
    simp only [List.length_cons]
    omega
  have hl1 : ¬ (("set" :: name :: value :: rest).length = 1) := by
    simp only [List.length_cons]
    omega
  have hg1 : ("set" :: name :: value :: rest).getD 1 "" = name := rfl
  have hg2 : ("set" :: name :: value :: rest).getD 2 "" = value := rfl
  constructor
  · intro hbad
    unfold set_option_cmd
    rw [if_neg hl2, if_neg hl1, hg1, hg2]
    rcases hbad with hk | hp | ⟨v, hv, hvneg⟩
    · rw [hk]
      simp
    · by_cases hk : known.contains name = false
      · rw [hk]
        simp
      · have hk' : known.contains name = true := by
          cases hb : known.contains name
          · exact absurd hb hk
          · rfl
        rw [hk', hp]
        simp
    · by_cases hk : known.contains name = false
      · rw [hk]
        simp
      · have hk' : known.contains name = true := by
          cases hb : known.contains name
          · exact absurd hb hk
          · rfl
        rw [hk', hv]
        simp [hvneg]
  · intro v hk hv hvpos
    unfold set_option_cmd
    rw [if_neg hl2, if_neg hl1, hg1, hg2, hk, hv]
    simp [not_lt.mpr hvpos]

/-- Witness for `set_option_validation`: one rejected and one applied
`set` command over a store holding option `"blind"`. -/
theorem set_option_validation_witness :
    (set_option_cmd ["blind"] ["set", "foo", "5"] [("blind", 10)]).2 = [("blind", 10)]
    ∧ set_option_cmd ["blind"] ["set", "blind", "25"] [("blind", 10)]
        = (["The blind is now set to 25."], [("blind", 25)]) := by
  constructor
  · exact ((set_option_validation ["blind"] "foo" "5" [] [("blind", 10)]).1
      (Or.inl (by decide))).1
  · have h := (set_option_validation ["blind"] "blind" "25" [] [("blind", 10)]).2 25
      (by decide) (by decide) (by decide)
    rw [h]
    rfl

/-- Claim C1 (code bug exhibit): a `WAITING` game with a single joined
player, whose requester is that player, is started by `start_game`
rather than rejected: the dead guard `len(game.players) < 0` of
`bot.py` line 92 never fires, contradicting its own error message
about requiring at least two players. -/
theorem start_game_single_player_bug :
    soloGame.state = GameState.WAITING
    ∧ soloGame.players.length = 1
    ∧ soloGame.is_player aliceU = true
    ∧ (start_game "!" soloGame aliceU).2.state = GameState.NO_HANDS
    ∧ (start_game "!" soloGame aliceU).2 ≠ soloGame := by
  refine ⟨rfl, rfl, by decide, rfl, by decide⟩

/-- Claim C7: in `NO_HANDS`, `deal_hand` deals exactly when the requester
is the designated dealer; a non-dealer is rejected with a message naming
the requester and the dealer, with the game unchanged; in any other
state the command is rejected with a state-specific message and no
mutation. -/
theorem deal_hand_dealer_only (pfx : String) (g : Game) (author : User) :
    (g.state = GameState.NO_HANDS → g.dealer.user = author →
      deal_hand pfx g author = g.deal_hands)
    ∧ (g.state = GameState.NO_HANDS → g.dealer.user ≠ author →
      deal_hand pfx g author =
        (["You aren't the dealer, " ++ author.name ++ ".",
          "Please wait for " ++ g.dealer.user.name ++ " to " ++ pfx ++ "deal."], g))
    ∧ (g.state ≠ GameState.NO_HANDS →
      (deal_hand pfx g author).2 = g ∧ (deal_hand pfx g author).1 ≠ []) := by
  refine ⟨?_, ?_, ?_⟩
  · intro hs hd
    simp [deal_hand, hs, hd]
  · intro hs hd
    simp [deal_hand, hs, hd]
  · intro hs
    cases hG : g.state <;> simp [deal_hand, hG] <;> simp [hG] at hs

/-- Witness for `deal_hand_dealer_only`: a non-dealer requester in
`NO_HANDS` is rejected by name with no mutation. -/
theorem deal_hand_dealer_only_witness :
    (deal_hand "!" noHandsGame bobU).2 = noHandsGame
    ∧ (deal_hand "!" noHandsGame bobU).1 =
        ["You aren't the dealer, bob.", "Please wait for alice to !deal."] := by
  have h := (deal_hand_dealer_only "!" noHandsGame bobU).2.1 (by decide) (by decide)
  exact ⟨by rw [h], by rw [h]; decide⟩

/-- Claim C10: for every recognized command-character-and-name token
arriving at a channel, the dispatcher stores a game for that channel
before invoking the handler — the existing one when present, the fresh
`Game(message)` otherwise — so after any recognized command (not just
`newgame`) the channel has a game entry. -/
theorem dispatch_creates_game (pfx w : String) (rest : List String)
    (games : Nat → Option Game) (channel : Nat) (fresh : Game)
    (hpfx : firstCharStr w = pfx)
    (hcmd : command_names.contains (stripPfx w pfx) = true) :
    (on_message_route pfx games channel (w :: rest) fresh).1 channel
        = some ((games channel).getD fresh)
    ∧ (on_message_route pfx games channel (w :: rest) fresh).2
        = some ((games channel).getD fresh)
    ∧ (games channel = none →
        (on_message_route pfx games channel (w :: rest) fresh).1 channel = some fresh)
    ∧ (∀ g0, games channel = some g0 →
        (on_message_route pfx games channel (w :: rest) fresh).1 channel = some g0) := by
  simp only [on_message_route, hpfx, hcmd, if_pos rfl, if_true]
  refine ⟨by simp, by simp, fun hn => by simp [hn], fun g0 hg => by simp [hg]⟩

theorem advance_turn_players (g : Game) : g.advance_turn.players = g.players := by
  unfold Game.advance_turn
  split <;> rfl

theorem advance_turn_pot (g : Game) : g.advance_turn.pot = g.pot := by
  unfold Game.advance_turn
  split <;> rfl

theorem advance_turn_cur_bet (g : Game) : g.advance_turn.cur_bet = g.cur_bet := by
  unfold Game.advance_turn
  split <;> rfl

theorem sumBets_advance_turn (g : Game) : sumBets g.advance_turn = sumBets g := by
  unfold sumBets
  rw [advance_turn_players]

theorem findEligible_lt (players : List Player) (fuel j k : Nat) (hj : j < players.length)
    (h : findEligible players j fuel = some k) : k < players.length := by
  induction fuel generalizing j with
  | zero => simp [findEligible] at h
  | succ n ih =>
    unfold findEligible at h
    split at h
    · cases h
      exact hj
    · exact ih ((j + 1) % players.length) (Nat.mod_lt _ (by omega)) h

theorem advance_turn_turn_lt (g : Game) (h : g.turn_index < g.players.length) :
    g.advance_turn.turn_index < g.advance_turn.players.length := by
  rw [advance_turn_players]
  unfold Game.advance_turn
  split
  · exact h
  · show (findEligible g.players ((g.turn_index + 1) % g.players.length)
      g.players.length).getD g.turn_index < g.players.length
    cases hfe : findEligible g.players ((g.turn_index + 1) % g.players.length)
        g.players.length with
    | none => simpa using h
    | some k =>
      have hk := findEligible_lt g.players g.players.length
        ((g.turn_index + 1) % g.players.length) k (Nat.mod_lt _ (by omega)) hfe
      simpa using hk

theorem sum_map_set (l : List Player) (i : Nat) (x : Player) (h : i < l.length) :
    ((l.set i x).map Player.cur_bet).sum
      = (l.map Player.cur_bet).sum + x.cur_bet - (l.getD i defaultPlayer).cur_bet := by
  induction l generalizing i with
  | nil => simp at h
  | cons p ps ih =>
    cases i with
    | zero =>
      simp only [List.set, List.map, List.sum_cons, List.getD_cons_zero]
      ring
    | succ j =>
      simp only [List.set, List.map, List.sum_cons, List.getD_cons_succ]
      rw [ih j (by simpa using h)]
      ring

theorem sumBets_updateCurrent (g : Game) (f : Player → Player)
    (h : g.turn_index < g.players.length) :
    sumBets (g.updateCurrent f) = sumBets g + (f g.current_player).cur_bet
      - g.current_player.cur_bet := by
  unfold sumBets Game.updateCurrent Game.current_player
  exact sum_map_set g.players g.turn_index (f (g.players.getD g.turn_index defaultPlayer)) h

theorem applyAction_conserves (g : Game) (act : BetAction)
    (h : g.turn_index < g.players.length) :
    (applyAction g act).pot - sumBets (applyAction g act) = g.pot - sumBets g
    ∧ (applyAction g act).turn_index < (applyAction g act).players.length := by
  cases act with
  | callA =>
    constructor
    · show (Game.call g).2.pot - sumBets (Game.call g).2 = _
      simp only [Game.call]
      rw [advance_turn_pot, sumBets_advance_turn]
      have hs := sumBets_updateCurrent g
        (fun p => { p with
                    cur_bet := min g.cur_bet g.current_player.max_bet,
                    all_in := p.all_in || decide (g.current_player.max_bet < g.cur_bet) }) h
      simp only [Game.updateCurrent] at hs ⊢
      simp only [sumBets] at hs ⊢
      rw [hs]
      ring
    · show (Game.call g).2.turn_index < (Game.call g).2.players.length
      simp only [Game.call]
      apply advance_turn_turn_lt
      simpa [Game.updateCurrent] using h
  | raiseA a =>
    by_cases h1 : a ≤ 0
    · constructor
      · show (Game.raise_bet g a).2.pot - sumBets (Game.raise_bet g a).2 = _
        simp only [Game.raise_bet, if_pos h1]
      · show (Game.raise_bet g a).2.turn_index < (Game.raise_bet g a).2.players.length
        simp only [Game.raise_bet, if_pos h1]
        exact h
    · by_cases h2 : g.current_player.max_bet < g.cur_bet + a
      · constructor
        · show (Game.raise_bet g a).2.pot - sumBets (Game.raise_bet g a).2 = _
          simp only [Game.raise_bet, if_neg h1, if_pos h2]
        · show (Game.raise_bet g a).2.turn_index < (Game.raise_bet g a).2.players.length
          simp only [Game.raise_bet, if_neg h1, if_pos h2]
          exact h
      · constructor
        · show (Game.raise_bet g a).2.pot - sumBets (Game.raise_bet g a).2 = _
          simp only [Game.raise_bet, if_neg h1, if_neg h2]
          rw [advance_turn_pot, sumBets_advance_turn]
          have hs := sumBets_updateCurrent g
            (fun p => { p with cur_bet := g.cur_bet + a }) h
          simp only [Game.updateCurrent] at hs ⊢
          simp only [sumBets] at hs ⊢
          rw [hs]
          ring
        · show (Game.raise_bet g a).2.turn_index < (Game.raise_bet g a).2.players.length
          simp only [Game.raise_bet, if_neg h1, if_neg h2]
          apply advance_turn_turn_lt
          simpa [Game.updateCurrent] using h
  | allInA =>
    constructor
    · show (Game.all_in g).2.pot - sumBets (Game.all_in g).2 = _
      simp only [Game.all_in]
      rw [advance_turn_pot, sumBets_advance_turn]
      have hs := sumBets_updateCurrent g
        (fun p => { p with cur_bet := p.max_bet, all_in := true }) h
      simp only [Game.updateCurrent] at hs ⊢
      simp only [sumBets] at hs ⊢
      rw [hs]
      ring
    · show (Game.all_in g).2.turn_index < (Game.all_in g).2.players.length
      simp only [Game.all_in]
      apply advance_turn_turn_lt
      simpa [Game.updateCurrent] using h

/-- Claim C3: after any sequence of `call`, `raise_bet` and `all_in`
actions within one betting round, the pot equals the sum of every
player's `cur_bet` plus the pot carried over from prior streets.  The
action list is arbitrary, so the invariant holds at every observation
point (every prefix is itself such a sequence). -/
theorem pot_conservation (acts : List BetAction) (g : Game) (carried : Int)
    (hidx : g.turn_index < g.players.length)
    (hinv : g.pot = sumBets g + carried) :
    (applyActions g acts).pot = sumBets (applyActions g acts) + carried := by
  induction acts generalizing g with
  | nil => exact hinv
  | cons act rest ih =>
    have hstep := applyAction_conserves g act hidx
    show (applyActions (applyAction g act) rest).pot = _
    exact ih (applyAction g act) hstep.2 (by omega)

/-- Witness for `pot_conservation`: a concrete betting game carrying `7`
over the current bets, run through a call, a raise and an all-in. -/
theorem pot_conservation_witness :
    bettingGame.turn_index < bettingGame.players.length
    ∧ bettingGame.pot = sumBets bettingGame + 7
    ∧ (applyActions bettingGame [BetAction.callA, BetAction.raiseA 5, BetAction.allInA]).pot
        = sumBets (applyActions bettingGame
            [BetAction.callA, BetAction.raiseA 5, BetAction.allInA]) + 7 := by
  refine ⟨by decide, by decide, ?_⟩
  exact pot_conservation [BetAction.callA, BetAction.raiseA 5, BetAction.allInA]
    bettingGame 7 (by decide) (by decide)

/-- Claim C2: during betting, a `raise <amount>` by the current player is
accepted exactly when `0 < amount` and
`table.cur_bet + amount <= actor.max_bet` — in which case the table bet,
the actor's bet and the pot are updated accordingly — and on every
rejection the game (hence the actor's stack and the pot) is unchanged. -/
theorem raise_bet_bound (pfx v : String) (rest : List String) (g : Game) (author : User)
    (a : Int)
    (hstate : g.state = GameState.BETTING)
    (hplayer : g.is_player author = true)
    (hcur : g.current_player.user = author)
    (hidx : g.turn_index < g.players.length)
    (hv : pyInt v = some a) :
    (0 < a ∧ g.cur_bet + a ≤ g.current_player.max_bet →
      (raise_bet pfx g author ("raise" :: v :: rest)).2.cur_bet = g.cur_bet + a
      ∧ ((raise_bet pfx g author ("raise" :: v :: rest)).2.players.getD g.turn_index
            defaultPlayer).cur_bet = g.cur_bet + a
      ∧ (raise_bet pfx g author ("raise" :: v :: rest)).2.pot
          = g.pot + (g.cur_bet + a - g.current_player.cur_bet))
    ∧ (¬ (0 < a ∧ g.cur_bet + a ≤ g.current_player.max_bet) →
      (raise_bet pfx g author ("raise" :: v :: rest)).2 = g) := by
  have hred : (raise_bet pfx g author ("raise" :: v :: rest)).2
      = if g.current_player.max_bet ≤ g.cur_bet then g
        else if g.current_player.max_bet < g.cur_bet + a then g
        else (g.raise_bet a).2 := by
    unfold raise_bet
    rw [if_neg (by rw [hstate]; decide), if_neg (by rw [hstate]; decide),
      if_neg (by rw [hplayer]; decide), if_neg (by rw [hstate]; decide),
      if_neg (by simp [hcur]), if_neg (by simp only [List.length_cons]; omega)]
    simp only [List.getD_cons_succ, List.getD_cons_zero, hv]
    by_cases h1 : g.current_player.max_bet ≤ g.cur_bet
    · rw [if_pos h1, if_pos h1]
    · rw [if_neg h1, if_neg h1]
      by_cases h2 : g.current_player.max_bet < g.cur_bet + a
      · rw [if_pos h2, if_pos h2]
      · rw [if_neg h2, if_neg h2]
  constructor
  · rintro ⟨ha, hb⟩
    have h1 : ¬ (g.current_player.max_bet ≤ g.cur_bet) := by omega
    have h2 : ¬ (g.current_player.max_bet < g.cur_bet + a) := by omega
    rw [hred, if_neg h1, if_neg h2]
    simp only [Game.raise_bet, if_neg (by omega : ¬ a ≤ 0), if_neg h2]
    refine ⟨?_, ?_, ?_⟩
    · rw [advance_turn_cur_bet]
    · rw [advance_turn_players]
      simp only [Game.updateCurrent]
      rw [getD_set_self _ _ _ _ hidx]
    · rw [advance_turn_pot]
      simp [Game.updateCurrent]
  · intro hrej
    rw [hred]
    by_cases h1 : g.current_player.max_bet ≤ g.cur_bet
    · rw [if_pos h1]
    · rw [if_neg h1]
      by_cases h2 : g.current_player.max_bet < g.cur_bet + a
      · rw [if_pos h2]
      · rw [if_neg h2]
        have ha : a ≤ 0 := by
          by_contra hc
          exact hrej ⟨by omega, by omega⟩
        simp only [Game.raise_bet, if_pos ha]

/-- Witness for `raise_bet_bound`: an in-bound raise of `20` is applied
(table bet `10` becomes `30`, pot `20` becomes `40`) and a non-positive
raise of `-5` leaves the game untouched. -/
theorem raise_bet_bound_witness :
    (raise_bet "!" bettingGame aliceU ["raise", "20"]).2.cur_bet = 30
    ∧ (raise_bet "!" bettingGame aliceU ["raise", "20"]).2.pot = 40
    ∧ (raise_bet "!" bettingGame aliceU ["raise", "-5"]).2 = bettingGame := by
  have h := (raise_bet_bound "!" "20" [] bettingGame aliceU 20 rfl (by decide) (by decide)
    (by decide) (by decide)).1 (by decide)
  have h2 := (raise_bet_bound "!" "-5" [] bettingGame aliceU (-5) rfl (by decide) (by decide)
    (by decide) (by decide)).2 (by decide)
  exact ⟨by rw [h.1]; decide, by rw [h.2.2]; decide, h2⟩

theorem strFindAux_some (c : Char) (l : List Char) (j i : Nat)
    (h : strFindAux c l j = some i) : j ≤ i ∧ i < j + l.length := by
  induction l generalizing j with
  | nil => simp [strFindAux] at h
  | cons a rest ih =>
    unfold strFindAux at h
    split at h
    · cases h
      simp only [List.length_cons]
      omega
    · have := ih (j + 1) h
      simp only [List.length_cons]
      omega

theorem strFind_some (s : List Char) (c : Char) (start i : Nat)
    (h : strFind s c start = some i) : start ≤ i ∧ i < s.length := by
  unfold strFind at h
  have hb := strFindAux_some c (s.drop start) start i h
  have hl : (s.drop start).length = s.length - start := List.length_drop start s
  omega

theorem dashLoop_congr (s : List Char) (fuel fuel' start : Nat)
    (h : s.length - start < fuel) (h' : s.length - start < fuel') :
    dashLoop s start fuel = dashLoop s start fuel' := by
  induction fuel generalizing fuel' start with
  | zero => omega
  | succ n ih =>
    cases fuel' with
    | zero => omega
    | succ n' =>
      unfold dashLoop
      cases hf : strFind s '-' start with
      | none => rfl
      | some i =>
        have hb := strFind_some s '-' start i hf
        show i :: dashLoop s (i + 1) n = i :: dashLoop s (i + 1) n'
        exact congrArg (i :: ·) (ih n' (i + 1) (by omega) (by omega))

theorem dashPositionsFrom_unfold (s : List Char) (start : Nat) :
    dashPositionsFrom s start
      = match strFind s '-' start with
        | none => []
        | some i => i :: dashPositionsFrom s (i + 1) := by
  unfold dashPositionsFrom
  unfold dashLoop
  cases hf : strFind s '-' start with
  | none => rfl
  | some i =>
    have hb := strFind_some s '-' start i hf
    exact congrArg (i :: ·) (dashLoop_congr s s.length (s.length + 1) (i + 1)
      (by omega) (by omega))

theorem dashPositions_some (s : List Char) (i : Nat) (h : strFind s '-' 0 = some i) :
    dashPositions s = i :: dashPositionsFrom s (i + 1) := by
  unfold dashPositions
  rw [dashPositionsFrom_unfold, h]

theorem find_card_aux_cons (n : Nat) (m : List Char) (rest : List (List Char)) :
    find_card_aux n (m :: rest)
      = (match strFind m '-' 0 with
         | none => []
         | some i => n :: i :: dashPositionsFrom m (i + 1)) ++ find_card_aux (n + 1) rest := rfl

theorem find_card_aux_enumFrom (msgs : List (List Char)) : ∀ n : Nat,
    find_card_aux n msgs
      = (msgs.enumFrom n).bind (fun p =>
          match strFind p.2 '-' 0 with
          | none => []
          | some _ => p.1 :: dashPositions p.2) := by
  induction msgs with
  | nil => intro n; rfl
  | cons m rest ih =>
    intro n
    unfold find_card_aux
    simp only [List.enumFrom, List.cons_bind]
    cases hf : strFind m '-' 0 with
    | none => simp [ih (n + 1)]
    | some i => simp [ih (n + 1), dashPositions_some m i hf]

theorem find_card_aux_of_none (n : Nat) (msgs : List (List Char))
    (h : ∀ s, s ∈ msgs → strFind s '-' 0 = none) : find_card_aux n msgs = [] := by
  induction msgs generalizing n with
  | nil => rfl
  | cons m rest ih =>
    unfold find_card_aux
    rw [h m (List.mem_cons_self m rest)]
    simp [ih (n + 1) (fun s hs => h s (List.mem_cons_of_mem m hs))]

theorem find_card_of_none (msgs : List (List Char))
    (h : ∀ s, s ∈ msgs → strFind s '-' 0 = none) : find_card msgs = [] :=
  find_card_aux_of_none 0 msgs h

theorem find_card_aux_append_none (n : Nat) (pre rest : List (List Char))
    (h : ∀ s, s ∈ pre → strFind s '-' 0 = none) :
    find_card_aux n (pre ++ rest) = find_card_aux (n + pre.length) rest := by
  induction pre generalizing n with
  | nil => simp
  | cons p ps ih =>
    show find_card_aux n (p :: (ps ++ rest)) = _
    rw [find_card_aux_cons, h p (List.mem_cons_self p ps),
      ih (n + 1) (fun s hs => h s (List.mem_cons_of_mem p hs))]
    have harith : n + 1 + ps.length = n + (p :: ps).length := by
      simp only [List.length_cons]
      omega
    simp [harith]

theorem find_card_first_dash_line (pre post : List (List Char)) (m : List Char) (i : Nat)
    (hpre : ∀ s, s ∈ pre → strFind s '-' 0 = none)
    (hi : strFind m '-' 0 = some i) :
    find_card (pre ++ m :: post)
      = (pre.length :: dashPositions m) ++ find_card_aux (pre.length + 1) post := by
  unfold find_card
  rw [find_card_aux_append_none 0 pre (m :: post) hpre]
  simp only [Nat.zero_add]
  rw [find_card_aux_cons, hi]
  simp [dashPositions_some m i hi]

theorem getD_append_length (pre post : List (List Char)) (m d : List Char) :
    (pre ++ m :: post).getD pre.length d = m := by
  induction pre with
  | nil => rfl
  | cons p ps ih => simpa using ih

theorem eraseIdx_append_length (pre post : List (List Char)) (m : List Char) :
    (pre ++ m :: post).eraseIdx pre.length = pre ++ post := by
  induction pre with
  | nil => rfl
  | cons p ps ih => simp [List.eraseIdx, ih]

/-- Claim C4 (amended): `find_card` records, for every line containing
the delimiter, that line's index followed by all delimiter positions in
that line, concatenated in line order — so later delimiter lines do
contribute positions; when exactly one line contains the delimiter, the
result is that line's index followed by its `N + 1` delimiter positions,
and the extraction loop cuts the `N` framed tokens from that line,
mapping each token `t` to `Cards/t.png`. -/
theorem find_card_amended (msgs pre post : List (List Char)) (m : List Char)
    (hpre : ∀ s, s ∈ pre → strFind s '-' 0 = none)
    (hpost : ∀ s, s ∈ post → strFind s '-' 0 = none)
    (hm : strFind m '-' 0 ≠ none) :
    find_card msgs
      = (msgs.enum).bind (fun p =>
          match strFind p.2 '-' 0 with
          | none => []
          | some _ => p.1 :: dashPositions p.2)
    ∧ find_card (pre ++ m :: post) = pre.length :: dashPositions m
    ∧ extract_cards (pre ++ m :: post) (find_card (pre ++ m :: post))
        = (List.range ((dashPositions m).length - 1)).map (fun i =>
            "Cards/".data
              ++ pySlice m ((dashPositions m).getD i 0 + 1)
                   ((dashPositions m).getD (i + 1) 0)
              ++ ".png".data) := by
  obtain ⟨i, hi⟩ : ∃ i, strFind m '-' 0 = some i := by
    cases hf : strFind m '-' 0 with
    | none => exact absurd hf hm
    | some j => exact ⟨j, rfl⟩
  have hfc : find_card (pre ++ m :: post) = pre.length :: dashPositions m := by
    rw [find_card_first_dash_line pre post m i hpre hi,
      find_card_aux_of_none (pre.length + 1) post hpost]
    simp
  refine ⟨find_card_aux_enumFrom msgs 0, hfc, ?_⟩
  rw [hfc]
  unfold extract_cards
  have hlen : (pre.length :: dashPositions m).length - 2 = (dashPositions m).length - 1 := by
    simp only [List.length_cons]
    omega
  rw [hlen]
  simp only [List.getD_cons_zero, List.getD_cons_succ, getD_append_length]

/-- Witness for `find_card_amended`: a single delimiter line with three
delimiter positions framing the two tokens `AS` and `KD`. -/
theorem find_card_amended_witness :
    strFind "x-AS-KD-".data '-' 0 ≠ none
    ∧ find_card ["x-AS-KD-".data] = [0, 1, 4, 7]
    ∧ extract_cards ["x-AS-KD-".data] (find_card ["x-AS-KD-".data])
        = ["Cards/AS.png".data, "Cards/KD.png".data] := by
  have h := find_card_amended ["x-AS-KD-".data] [] [] "x-AS-KD-".data
    (fun s hs => absurd hs (List.not_mem_nil s))
    (fun s hs => absurd hs (List.not_mem_nil s)) (by decide)
  exact ⟨by decide, h.2.1.trans (by decide), h.2.2.trans (by decide)⟩

/-- Claim C4 counterexample: with two delimiter lines, the second line
contributes its index and position to `find_card`'s output — the source
scans every line, not only the first — whereas the spec's first-line-only
reading (`find_card_spec`) records `[0, 1]`; moreover a token `t` maps to
the asset path `Cards/t.png`, not the bare `t.png`. -/
theorem find_card_later_lines_counterexample :
    find_card ["a-b".data, "c-d".data] = [0, 1, 1, 1]
    ∧ find_card_spec ["a-b".data, "c-d".data] = [0, 1]
    ∧ find_card ["a-b".data, "c-d".data] ≠ find_card_spec ["a-b".data, "c-d".data]
    ∧ extract_cards ["x-AS-KD-".data] (find_card ["x-AS-KD-".data])
        = ["Cards/AS.png".data, "Cards/KD.png".data]
    ∧ "Cards/AS.png".data ≠ "AS.png".data := by
  refine ⟨by decide, by decide, by decide, by decide, by decide⟩

theorem pasteLoop_width (l : List Img) : ∀ (acc : Img) (x : Nat),
    (pasteLoop l acc x).width = acc.width := by
  induction l with
  | nil => intro acc x; rfl
  | cons im rest ih => intro acc x; exact ih (paste acc im x 0) (x + im.width)

theorem pasteLoop_height (l : List Img) : ∀ (acc : Img) (x : Nat),
    (pasteLoop l acc x).height = acc.height := by
  induction l with
  | nil => intro acc x; rfl
  | cons im rest ih => intro acc x; exact ih (paste acc im x 0) (x + im.width)

theorem pasteLoop_pix_lt (l : List Img) : ∀ (acc : Img) (x a b : Nat), a < x →
    (pasteLoop l acc x).pix a b = acc.pix a b := by
  induction l with
  | nil => intro acc x a b _; rfl
  | cons im rest ih =>
    intro acc x a b hax
    show (pasteLoop rest (paste acc im x 0) (x + im.width)).pix a b = acc.pix a b
    rw [ih (paste acc im x 0) (x + im.width) a b (by omega)]
    simp only [paste]
    rw [if_neg (by omega)]

theorem pasteLoop_pix_get (l : List Img) :
    ∀ (acc : Img) (x i : Nat) (hi : i < l.length) (a b : Nat),
    a < (l.get ⟨i, hi⟩).width → b < (l.get ⟨i, hi⟩).height →
    (pasteLoop l acc x).pix (x + ((l.take i).map Img.width).sum + a) b
      = (l.get ⟨i, hi⟩).pix a b := by
  induction l with
  | nil => intro _ _ i hi; simp at hi
  | cons im rest ih =>
    intro acc x i hi a b ha hb
    cases i with
    | zero =>
      simp only [List.get_eq_getElem, List.getElem_cons_zero] at ha hb ⊢
      simp only [List.take_zero, List.map_nil, List.sum_nil, Nat.add_zero]
      show (pasteLoop rest (paste acc im x 0) (x + im.width)).pix (x + a) b = im.pix a b
      rw [pasteLoop_pix_lt rest (paste acc im x 0) (x + im.width) (x + a) b (by omega)]
      simp only [paste]
      rw [if_pos (by omega)]
      rw [show x + a - x = a from by omega]
      rfl
    | succ j =>
      have hj : j < rest.length := by simpa using hi
      have hget : ((im :: rest).get ⟨j + 1, hi⟩) = rest.get ⟨j, hj⟩ := by
        simp [List.get_eq_getElem]
      rw [hget] at ha hb ⊢
      simp only [List.take_succ_cons, List.map_cons, List.sum_cons]
      have harith : x + (im.width + ((rest.take j).map Img.width).sum) + a
          = x + im.width + ((rest.take j).map Img.width).sum + a := by omega
      rw [harith]
      exact ih (paste acc im x 0) (x + im.width) j hj a b ha hb

theorem foldl_max_le (l : List Nat) : ∀ a : Nat, a ≤ l.foldl max a := by
  induction l with
  | nil => intro a; exact Nat.le_refl a
  | cons x xs ih => intro a; exact le_trans (Nat.le_max_left a x) (ih (max a x))

theorem le_foldl_max (l : List Nat) : ∀ (a x : Nat), x ∈ l → x ≤ l.foldl max a := by
  induction l with
  | nil => intro a x hx; cases hx
  | cons y ys ih =>
    intro a x hx
    rcases List.mem_cons.mp hx with h | h
    · subst h
      exact le_trans (Nat.le_max_right a x) (foldl_max_le ys (max a x))
    · exact ih (max a y) x h

theorem foldl_max_mem (l : List Nat) : ∀ a : Nat, l.foldl max a = a ∨ l.foldl max a ∈ l := by
  induction l with
  | nil => intro a; exact Or.inl rfl
  | cons y ys ih =>
    intro a
    rcases ih (max a y) with h | h
    · rcases max_choice a y with h2 | h2
      · exact Or.inl (h.trans h2)
      · exact Or.inr (by
          show List.foldl max (max a y) ys ∈ y :: ys
          rw [h, h2]
          exact List.mem_cons_self y ys)
    · exact Or.inr (List.mem_cons_of_mem y h)

theorem pyMax_mem (l : List Nat) (hne : l ≠ []) : pyMax l ∈ l := by
  rcases foldl_max_mem l 0 with h | h
  · cases l with
    | nil => exact absurd rfl hne
    | cons y ys =>
      have hy : y ≤ pyMax (y :: ys) := le_foldl_max (y :: ys) 0 y (List.mem_cons_self y ys)
      unfold pyMax at hy ⊢
      rw [h] at hy ⊢
      have : y = 0 := Nat.le_zero.mp hy
      rw [← this]
      exact List.mem_cons_self y ys
  · exact h

/-- Claim C5: for a nonempty token list resolving to images, the
composed image's width is the sum of the widths, its height is the
maximum of the heights, and each source image is placed left-to-right at
the x-offset given by the widths before it, top-aligned at `y = 0`, in
token order. -/
theorem compose_images_spec (images : List Img) (hne : images ≠ []) :
    (compose_images images).width = (images.map Img.width).sum
    ∧ (compose_images images).height = pyMax (images.map Img.height)
    ∧ pyMax (images.map Img.height) ∈ images.map Img.height
    ∧ (∀ h ∈ images.map Img.height, h ≤ pyMax (images.map Img.height))
    ∧ ∀ (i : Nat) (hi : i < images.length) (a b : Nat),
        a < (images.get ⟨i, hi⟩).width → b < (images.get ⟨i, hi⟩).height →
        (compose_images images).pix (((images.take i).map Img.width).sum + a) b
          = (images.get ⟨i, hi⟩).pix a b := by
  refine ⟨?_, ?_, ?_, ?_, ?_⟩
  · unfold compose_images
    rw [pasteLoop_width]
    rfl
  · unfold compose_images
    rw [pasteLoop_height]
    rfl
  · exact pyMax_mem (images.map Img.height) (by simpa using hne)
  · intro h hh
    exact le_foldl_max (images.map Img.height) 0 h hh
  · intro i hi a b ha hb
    unfold compose_images
    have h := pasteLoop_pix_get images
      (Image_new ((images.map Img.width).sum) (pyMax (images.map Img.height))) 0 i hi a b ha hb
    simpa using h

/-- Witness for `compose_images_spec`: two concrete images of sizes
2-by-3 and 1-by-2 compose to a 3-by-3 image whose pixels at offsets 0
and 2 come from the first and second image respectively. -/
theorem compose_images_spec_witness :
    (compose_images [imA, imB]).width = 3
    ∧ (compose_images [imA, imB]).height = 3
    ∧ (compose_images [imA, imB]).pix 0 0 = 10
    ∧ (compose_images [imA, imB]).pix 2 1 = 101 := by
  have h := compose_images_spec [imA, imB] (by simp)
  refine ⟨?_, ?_, ?_, ?_⟩
  · rw [h.1]
    rfl
  · rw [h.2.1]
    rfl
  · exact (h.2.2.2.2 0 (by decide) 0 0 (by decide) (by decide)).trans rfl
  · exact (h.2.2.2.2 1 (by decide) 0 1 (by decide) (by decide)).trans rfl

/-- Claim C6 counterexample: the line `a-b` contains the delimiter, yet
no image is sent — the single recorded position frames zero tokens, so
after removing the line and sending the (empty) remaining text the
program dies with `ValueError` at the `zip` unpack of `bot.py` line 454
instead of delivering a composed image. -/
theorem handle_render_zero_tokens_counterexample :
    strFind "a-b".data '-' 0 ≠ none
    ∧ handle_render (fun _ => Image_new 1 1) ["a-b".data] = RenderOut.textThenError []
    ∧ (handle_render (fun _ => Image_new 1 1) ["a-b".data]).sendsImage = false := by
  refine ⟨by decide, rfl, rfl⟩

/-- Claim C6 (amended): when no line contains the delimiter, the
response is sent unchanged as plain text and no image is produced.  When
exactly one line does, that line — the one the card tokens are cut
from — is removed from the text lines and the remaining lines are sent;
if its recorded delimiter positions frame at least one token, the
composed image is delivered separately, while a single delimiter
position (zero framed tokens) makes the program fail at the `zip`
unpack after sending the text, so no image is sent. -/
theorem handle_render_cases (assets : List Char → Img) (msgs pre post : List (List Char))
    (m : List Char)
    (hnone : ∀ s, s ∈ msgs → strFind s '-' 0 = none)
    (hpre : ∀ s, s ∈ pre → strFind s '-' 0 = none)
    (hpost : ∀ s, s ∈ post → strFind s '-' 0 = none)
    (hm : strFind m '-' 0 ≠ none) :
    handle_render assets msgs = RenderOut.textOnly msgs
    ∧ (2 ≤ (dashPositions m).length →
        handle_render assets (pre ++ m :: post)
          = RenderOut.withImage (pre ++ post)
              (compose_images ((extract_cards (pre ++ m :: post)
                  (find_card (pre ++ m :: post))).map assets)))
    ∧ ((dashPositions m).length = 1 →
        handle_render assets (pre ++ m :: post) = RenderOut.textThenError (pre ++ post)) := by
  obtain ⟨i, hi⟩ : ∃ i, strFind m '-' 0 = some i := by
    cases hf : strFind m '-' 0 with
    | none => exact absurd hf hm
    | some j => exact ⟨j, rfl⟩
  have hfc : find_card (pre ++ m :: post) = pre.length :: dashPositions m := by
    rw [find_card_first_dash_line pre post m i hpre hi,
      find_card_aux_of_none (pre.length + 1) post hpost]
    simp
  refine ⟨?_, ?_, ?_⟩
  · unfold handle_render
    rw [if_pos (find_card_of_none msgs hnone)]
  · intro htok
    have hcards : extract_cards (pre ++ m :: post) (find_card (pre ++ m :: post)) ≠ [] := by
      rw [hfc]
      unfold extract_cards
      simp only [ne_eq, List.map_eq_nil, List.range_eq_nil, List.length_cons]
      omega
    unfold handle_render
    rw [if_neg (by rw [hfc]; simp)]
    show (if extract_cards (pre ++ m :: post) (find_card (pre ++ m :: post)) = []
        then RenderOut.textThenError
          ((pre ++ m :: post).eraseIdx ((find_card (pre ++ m :: post)).getD 0 0))
        else RenderOut.withImage
          ((pre ++ m :: post).eraseIdx ((find_card (pre ++ m :: post)).getD 0 0))
          (compose_images ((extract_cards (pre ++ m :: post)
            (find_card (pre ++ m :: post))).map assets))) = _
    rw [if_neg hcards]
    rw [show (find_card (pre ++ m :: post)).getD 0 0 = pre.length from by rw [hfc]; rfl]
    rw [eraseIdx_append_length]
  · intro hone
    have hcards : extract_cards (pre ++ m :: post) (find_card (pre ++ m :: post)) = [] := by
      rw [hfc]
      unfold extract_cards
      rw [show (pre.length :: dashPositions m).length - 2 = 0 from by
        simp only [List.length_cons, hone]]
      rfl
    unfold handle_render
    rw [if_neg (by rw [hfc]; simp)]
    show (if extract_cards (pre ++ m :: post) (find_card (pre ++ m :: post)) = []
        then RenderOut.textThenError
          ((pre ++ m :: post).eraseIdx ((find_card (pre ++ m :: post)).getD 0 0))
        else RenderOut.withImage
          ((pre ++ m :: post).eraseIdx ((find_card (pre ++ m :: post)).getD 0 0))
          (compose_images ((extract_cards (pre ++ m :: post)
            (find_card (pre ++ m :: post))).map assets))) = _
    rw [if_pos hcards]
    rw [show (find_card (pre ++ m :: post)).getD 0 0 = pre.length from by rw [hfc]; rfl]
    rw [eraseIdx_append_length]

/-- Witness for `handle_render_cases`: a delimiter-free response is sent
as text; a line with two delimiter positions loses that line and gains an
image; a line with a single delimiter position loses that line and ends
in the `ValueError` path with no image. -/
theorem handle_render_cases_witness :
    handle_render (fun _ => Image_new 1 1) [['a']] = RenderOut.textOnly [['a']]
    ∧ handle_render (fun _ => Image_new 1 1) ["a-b-c".data, ['z']]
        = RenderOut.withImage [['z']]
            (compose_images ((extract_cards ["a-b-c".data, ['z']]
                (find_card ["a-b-c".data, ['z']])).map (fun _ => Image_new 1 1)))
    ∧ handle_render (fun _ => Image_new 1 1) ["a-b".data, ['z']]
        = RenderOut.textThenError [['z']] := by
  have h := handle_render_cases (fun _ => Image_new 1 1) [['a']] [] [['z']] "a-b-c".data
    (by
      intro s hs
      rw [List.mem_singleton] at hs
      subst hs
      decide)
    (fun s hs => absurd hs (List.not_mem_nil s))
    (by
      intro s hs
      rw [List.mem_singleton] at hs
      subst hs
      decide)
    (by decide)
  have h2 := handle_render_cases (fun _ => Image_new 1 1) [['a']] [] [['z']] "a-b".data
    (by
      intro s hs
      rw [List.mem_singleton] at hs
      subst hs
      decide)
    (fun s hs => absurd hs (List.not_mem_nil s))
    (by
      intro s hs
      rw [List.mem_singleton] at hs
      subst hs
      decide)
    (by decide)
  exact ⟨h.1, h.2.1 (by decide), h2.2.2 (by decide)⟩

/-- Witness for `dispatch_creates_game`: the `help` command (not
`newgame`) on a channel with no game yet installs the fresh game. -/
theorem dispatch_creates_game_witness :
    firstCharStr "!help" = "!"
    ∧ command_names.contains (stripPfx "!help" "!") = true
    ∧ stripPfx "!help" "!" ≠ "newgame"
    ∧ (on_message_route "!" (fun _ => none) 0 ["!help"] freshGame).1 0 = some freshGame := by
  refine ⟨by decide, by decide, by decide, ?_⟩
  exact (dispatch_creates_game "!" "!help" [] (fun _ => none) 0 freshGame (by decide)
    (by decide)).2.2.1 rfl
